import Mathlib

/-!
Verification of the streaming HTTP message reconstruction engine of
`script/burp_to_xml.py`: byte-window management, message-start detection,
header/body framing (content-length and chunked), the message stream
iterator, and request/response pairing.

Bytes are modelled as `Nat` (values 0..255 in practice) and buffers as
`List Nat`.  Python slicing, `bytes.find`, `bytes.splitlines`, `str.strip`,
`int(...)` parsing and the two start-detection regular expressions are
embedded explicitly.  The `while True` loop of `parse_chunked_end` and the
inner extraction loop of `iter_http_messages` are embedded with an explicit
fuel parameter, since the source loops are not structurally terminating.
-/

set_option autoImplicit false
set_option synthInstance.maxSize 512

namespace BurpToXml

/-- Convert a string literal to its byte list (all inputs used are latin-1,
where the code point equals the byte). -/
def strBytes (s : String) : List Nat := s.data.map Char.toNat

/-- Byte at index `i`, defaulting to 0 out of bounds (used only where the
source guarantees bounds or where 0 fails the surrounding test anyway). -/
def byteAt (xs : List Nat) (i : Nat) : Nat := xs.getD i 0

/-- Python's normalisation of a (possibly negative) slice index for a
sequence of length `L`: negative indices count from the end, and the result
is clamped into `[0, L]`. -/
def pyNormIdx (L : Nat) (i : Int) : Nat :=
  if i < 0 then ((L : Int) + i).toNat else min i.toNat L

/-- Python `xs[a:b]` for byte strings, with full negative-index semantics. -/
def pySlice (xs : List Nat) (a b : Int) : List Nat :=
  (xs.take (pyNormIdx xs.length b)).drop (pyNormIdx xs.length a)

/-- Python `xs[a:]`. -/
def pyDropI (xs : List Nat) (a : Int) : List Nat :=
  xs.drop (pyNormIdx xs.length a)

/-- Whether `pat` is a prefix of `xs` (byte-exact). -/
def listPrefixEq : List Nat → List Nat → Bool
  | [], _ => true
  | _ :: _, [] => false
  | a :: as, b :: bs => (a == b) && listPrefixEq as bs

/-- Helper for `pyFindSub`: first offset at which `pat` occurs in `xs`. -/
def findSubAux (pat : List Nat) : List Nat → Nat → Option Nat
  | [], i => if pat.isEmpty then some i else none
  | xs@(_ :: rest), i =>
    if listPrefixEq pat xs then some i else findSubAux pat rest (i + 1)

/-- Python `buffer.find(pat, start)` (returning `none` for -1).  The start
position is normalised the Python way (negative counts from the end). -/
def pyFindSub (xs pat : List Nat) (start : Int) : Option Nat :=
  (findSubAux pat (xs.drop (pyNormIdx xs.length start)) 0).map
    (fun k => k + pyNormIdx xs.length start)

/-- Python `needle in hay` for byte/str values. -/
def containsSub (hay needle : List Nat) : Bool := (pyFindSub hay needle 0).isSome

/-- The byte set stripped by `bytes.strip()`: ASCII whitespace. -/
def isPyBytesSpace (c : Nat) : Bool :=
  c == 32 || c == 9 || c == 10 || c == 13 || c == 11 || c == 12

/-- The code points (within latin-1 range) stripped by `str.strip()`:
Unicode whitespace, which in latin-1 additionally includes the information
separators 28..31, NEL (133) and NBSP (160). -/
def isStrSpaceL1 (c : Nat) : Bool :=
  c == 32 || c == 9 || c == 10 || c == 13 || c == 11 || c == 12 ||
  c == 28 || c == 29 || c == 30 || c == 31 || c == 133 || c == 160

/-- Strip bytes satisfying `p` from both ends. -/
def stripWith (p : Nat → Bool) (xs : List Nat) : List Nat :=
  ((xs.dropWhile p).reverse.dropWhile p).reverse

/-- Python `bytes.strip()`. -/
def bytesStrip (xs : List Nat) : List Nat := stripWith isPyBytesSpace xs

/-- Python `str.strip()` on a latin-1 decoded value (code point = byte). -/
def strStrip (xs : List Nat) : List Nat := stripWith isStrSpaceL1 xs

/-- ASCII-only lower casing (the case folding used by `re.IGNORECASE` on
byte patterns). -/
def asciiLower (c : Nat) : Nat := if 65 ≤ c && c ≤ 90 then c + 32 else c

/-- Python `str.lower()` restricted to latin-1 code points: ASCII letters and the
latin-1 uppercase letters 192..222 (except ×, 215) map down by 32. -/
def l1Lower (c : Nat) : Nat :=
  if 65 ≤ c && c ≤ 90 then c + 32
  else if 192 ≤ c && c ≤ 222 && c != 215 then c + 32
  else c

/-- Python `str.upper()` on one latin-1 code point; ß (223) expands to "SS",
µ (181) maps to U+039C and ÿ (255) to U+0178. -/
def l1UpperCh (c : Nat) : List Nat :=
  if 97 ≤ c && c ≤ 122 then [c - 32]
  else if c == 223 then [83, 83]
  else if c == 181 then [924]
  else if c == 255 then [376]
  else if 224 ≤ c && c ≤ 254 && c != 247 then [c - 32]
  else [c]

/-- Python `str.upper()` on a latin-1 decoded string. -/
def l1Upper (xs : List Nat) : List Nat := (xs.map l1UpperCh).flatten

/-- Digit value of a byte in the given base (10 or 16), as Python `int`
accepts it (ASCII digits, and a-f/A-F for base 16). -/
def digitVal (base c : Nat) : Option Nat :=
  if 48 ≤ c && c ≤ 57 && c - 48 < base then some (c - 48)
  else if base == 16 && 97 ≤ c && c ≤ 102 then some (c - 87)
  else if base == 16 && 65 ≤ c && c ≤ 70 then some (c - 55)
  else none

/-- Digits after the first one: single underscores are allowed between
digits (CPython's numeric literal rule for `int()`). -/
def digitsRun (base : Nat) : List Nat → Nat → Option Nat
  | [], acc => some acc
  | 95 :: rest, acc =>
    match rest with
    | c :: rest' =>
      match digitVal base c with
      | some d => digitsRun base rest' (acc * base + d)
      | none => none
    | [] => none
  | c :: rest, acc =>
    match digitVal base c with
    | some d => digitsRun base rest (acc * base + d)
    | none => none

/-- A non-empty digit string (with embedded underscores) in the given base. -/
def digitsParse (base : Nat) : List Nat → Option Nat
  | [] => none
  | 95 :: _ => none
  | c :: rest => (digitVal base c).bind (fun d => digitsRun base rest d)

/-- Magnitude part of `int(s, base)`: for base 16 an optional `0x`/`0X`
prefix (optionally followed by one underscore) is accepted. -/
def pyIntMag (base : Nat) (allowHexPre : Bool) (xs : List Nat) : Option Nat :=
  if allowHexPre then
    match xs with
    | 48 :: x :: rest =>
      if x == 120 || x == 88 then
        match rest with
        | 95 :: r2 => digitsParse 16 r2
        | _ => digitsParse 16 rest
      else digitsParse base xs
    | _ => digitsParse base xs
  else digitsParse base xs

/-- Optional sign followed by a magnitude. -/
def pyIntCore (base : Nat) (allowHexPre : Bool) (xs : List Nat) : Option Int :=
  match xs with
  | 43 :: rest => (pyIntMag base allowHexPre rest).map (fun n => (n : Int))
  | 45 :: rest => (pyIntMag base allowHexPre rest).map (fun n => -(n : Int))
  | _ => (pyIntMag base allowHexPre xs).map (fun n => (n : Int))

/-- Python `int(s)` for a latin-1 string value (as used on the
content-length header): strips Unicode whitespace, accepts a sign and
underscores between digits; `none` models `ValueError`. -/
def pyIntDec (xs : List Nat) : Option Int := pyIntCore 10 false (strStrip xs)

/-- Python `int(b, 16)` for a bytes value (as used on chunk-size lines):
strips ASCII whitespace, accepts a sign, `0x` prefix and underscores;
`none` models `ValueError`.  Note a sign IS accepted, so `b"-4"` parses. -/
def pyIntHex (xs : List Nat) : Option Int := pyIntCore 16 true (bytesStrip xs)

/-- Worker for `bytes.splitlines()`; `cur` holds the current line reversed. -/
def splitlinesGo (cur : List Nat) : List Nat → List (List Nat)
  | [] => if cur.isEmpty then [] else [cur.reverse]
  | 13 :: 10 :: rest => cur.reverse :: splitlinesGo [] rest
  | 13 :: rest => cur.reverse :: splitlinesGo [] rest
  | 10 :: rest => cur.reverse :: splitlinesGo [] rest
  | b :: rest => splitlinesGo (b :: cur) rest

/-- Python `bytes.splitlines()`: splits on `\r\n`, `\r` and `\n`; a trailing
segment is emitted only when non-empty. -/
def bytesSplitlines (xs : List Nat) : List (List Nat) := splitlinesGo [] xs

/-- Header maps are association lists in insertion order; assignment
overwrites in place (Python dict semantics, last value wins). -/
def hdrInsert (k v : List Nat) : List (List Nat × List Nat) → List (List Nat × List Nat)
  | [] => [(k, v)]
  | (k', v') :: rest =>
    if k' = k then (k', v) :: rest else (k', v') :: hdrInsert k v rest

/-- Dictionary lookup. -/
def lookupHdr (hs : List (List Nat × List Nat)) (k : List Nat) : Option (List Nat) :=
  match hs with
  | [] => none
  | (k', v) :: rest => if k' = k then some v else lookupHdr rest k

/-- One header line's contribution to the map, mirroring the loop body of
`parse_headers`: skip blank lines and lines without a colon, else split at
the first colon and store stripped lower-cased name to stripped value. -/
def parseHeaderLine (hs : List (List Nat × List Nat)) (line : List Nat) :
    List (List Nat × List Nat) :=
  if (bytesStrip line).isEmpty then hs
  else
    match pyFindSub line [58] 0 with
    | none => hs
    | some k =>
      hdrInsert ((strStrip (line.take k)).map l1Lower)
        (strStrip (line.drop (k + 1))) hs

/-- The function `parse_headers`: first line (stripped) plus the header map.  Decoding
is latin-1, under which code points equal bytes. -/
def parse_headers (header_bytes : List Nat) :
    List Nat × List (List Nat × List Nat) :=
  match bytesSplitlines header_bytes with
  | [] => ([], [])
  | first :: rest => (strStrip first, rest.foldl parseHeaderLine [])

/-- The HTTP method tokens of the source (uppercase ASCII). -/
def HTTP_METHODS : List (List Nat) :=
  [strBytes "GET", strBytes "POST", strBytes "PUT", strBytes "DELETE",
   strBytes "HEAD", strBytes "OPTIONS", strBytes "PATCH",
   strBytes "CONNECT", strBytes "TRACE"]

/-- Case-insensitive (ASCII folding) prefix test, as used by the
`re.IGNORECASE` byte patterns. -/
def litPrefixCI : List Nat → List Nat → Bool
  | [], _ => true
  | _ :: _, [] => false
  | a :: as, b :: bs => (asciiLower a == asciiLower b) && litPrefixCI as bs

/-- Python `\s` over bytes: space, tab, LF, CR, VT, FF. -/
def isWSb (c : Nat) : Bool :=
  c == 32 || c == 9 || c == 10 || c == 13 || c == 11 || c == 12

/-- The class `\d` over bytes. -/
def isDigitb (c : Nat) : Bool := 48 ≤ c && c ≤ 57

/-- A CR or LF byte. -/
def isCRLFb (c : Nat) : Bool := c == 13 || c == 10

/-- Negation of `isCRLFb`, the `[^\r\n]` character class. -/
def isNotCRLFb (c : Nat) : Bool := !(c == 13 || c == 10)

/-- All bytes in `[a, b)` of `xs` satisfy `p` (positions past the end are
not checked; callers bound the range). -/
def rangeAll (xs : List Nat) (a b : Nat) (p : Nat → Bool) : Bool :=
  ((xs.drop a).take (b - a)).all p

/-- Decides `∃ k, 1 ≤ k ≤ n ∧ p k` executably. -/
def anyUpto : Nat → (Nat → Bool) → Bool
  | 0, _ => false
  | n + 1, p => p (n + 1) || anyUpto n p

/-- Whether `HTTP/\d` (case-insensitive) matches at position `x`. -/
def httpVTokenAt (xs : List Nat) (x : Nat) : Bool :=
  litPrefixCI (strBytes "http/") (xs.drop x) && isDigitb (byteAt xs (x + 5))

/-- Existence of a split of `[q, x)` as `\s+ [^\r\n]{1,2048} \s+`, i.e.
the part of the request pattern between the method token (ending at `q`)
and the `HTTP/` version token (starting at `x`).  This is exactly the set
of decompositions the backtracking regex engine can choose from. -/
def reqDecomp (xs : List Nat) (q x : Nat) : Bool :=
  anyUpto (x - q) fun a =>
    rangeAll xs q (q + a) isWSb &&
    anyUpto (x - q - a) fun c =>
      decide (q + a + c < x) && decide (x - c - (q + a) ≤ 2048) &&
      rangeAll xs (x - c) x isWSb &&
      rangeAll xs (q + a) (x - c) isNotCRLFb

/-- The un-anchored request pattern
`(METHOD)\s+[^\r\n]{1,2048}\s+HTTP/\d(?:\.\d)?` (IGNORECASE) can match
starting at position `p`. -/
def reqCoreAt (xs : List Nat) (p : Nat) : Bool :=
  HTTP_METHODS.any fun m =>
    litPrefixCI m (xs.drop p) &&
    anyUpto xs.length fun x =>
      decide (p + m.length < x) && httpVTokenAt xs x &&
      reqDecomp xs (p + m.length) x

/-- Whether `\s+\d{3}` can match starting at position `p` (the trailing
`[^\r\n]*` of the response pattern constrains nothing). -/
def respTailFrom (xs : List Nat) (p : Nat) : Bool :=
  anyUpto xs.length fun k =>
    rangeAll xs p (p + k) isWSb && isDigitb (byteAt xs (p + k)) &&
    isDigitb (byteAt xs (p + k + 1)) && isDigitb (byteAt xs (p + k + 2))

/-- The un-anchored response pattern
`HTTP/\d(?:\.\d)?\s+\d{3}[^\r\n]*` (IGNORECASE) can match at `p`. -/
def respCoreAt (xs : List Nat) (p : Nat) : Bool :=
  httpVTokenAt xs p &&
  (respTailFrom xs (p + 6) ||
    (byteAt xs (p + 6) == 46 && isDigitb (byteAt xs (p + 7)) &&
      respTailFrom xs (p + 8)))

/-- The full anchored request pattern `(?:^|[\r\n])(METHOD)...` matches
starting at `i`:  at 0 via the empty `^` branch, or by consuming one
CR/LF byte. -/
def reqAnchAt (xs : List Nat) (i : Nat) : Bool :=
  ((i == 0) && reqCoreAt xs 0) || (isCRLFb (byteAt xs i) && reqCoreAt xs (i + 1))

/-- The full anchored response pattern matches starting at `i`. -/
def respAnchAt (xs : List Nat) (i : Nat) : Bool :=
  ((i == 0) && respCoreAt xs 0) || (isCRLFb (byteAt xs i) && respCoreAt xs (i + 1))

/-- Scan positions `i, i+1, ...` (at most `fuel` of them) for the first
satisfying `p`; models `re.search` returning the leftmost match start. -/
def firstIdxFrom (p : Nat → Bool) : Nat → Nat → Option Nat
  | 0, _ => none
  | fuel + 1, i => if p i then some i else firstIdxFrom p fuel (i + 1)

/-- Models `REQUEST_START_RE.search(buffer)`: start offset of the leftmost match. -/
def reqSearch (xs : List Nat) : Option Nat :=
  firstIdxFrom (reqAnchAt xs) (xs.length + 1) 0

/-- Models `RESPONSE_START_RE.search(buffer)`. -/
def respSearch (xs : List Nat) : Option Nat :=
  firstIdxFrom (respAnchAt xs) (xs.length + 1) 0

/-- Message kinds reported by the locator. -/
inductive HKind where
  | request
  | response
  deriving DecidableEq, Repr

/-- Fuel-indexed worker for the CR/LF skip loop; the loop advances by one
position per iteration and stops at the buffer end, so `buffer.length - s`
fuel is always enough. -/
def skipCRLFAux (buffer : List Nat) : Nat → Nat → Nat
  | 0, s => s
  | fuel + 1, s =>
    if s < buffer.length ∧ isCRLFb (byteAt buffer s) then
      skipCRLFAux buffer fuel (s + 1)
    else s

/-- The `while start < len(buffer) and buffer[start] in (10, 13)` skip loop
of `find_next_http_start`. -/
def skipCRLF (buffer : List Nat) (s : Nat) : Nat :=
  skipCRLFAux buffer (buffer.length - s) s

/-- The function `find_next_http_start`: earliest of the two pattern matches (request
wins a tie, being first in the `matches` list), with leading CR/LF bytes
skipped. -/
def find_next_http_start (buffer : List Nat) : Option (Nat × HKind) :=
  match reqSearch buffer, respSearch buffer with
  | none, none => none
  | some i, none => some (skipCRLF buffer i, HKind.request)
  | none, some j => some (skipCRLF buffer j, HKind.response)
  | some i, some j =>
    if i ≤ j then some (skipCRLF buffer i, HKind.request)
    else some (skipCRLF buffer j, HKind.response)

/-- One full evaluation of the `while True` body of `parse_chunked_end`,
with explicit fuel: `none` means the fuel ran out (the source loop would
still be running), `some none` models the Python `return None`, and
`some (some e)` models `return e`.  The index is an `Int` because a
negative parsed chunk size can drive it below zero, where Python's slicing
wraps around; `pyFindSub`/`pySlice` implement that normalisation. -/
def parse_chunked_end_aux (buffer : List Nat) : Nat → Int → Option (Option Int)
  | 0, _ => none
  | fuel + 1, idx =>
    let found : Option Nat × Int :=
      match pyFindSub buffer [13, 10] idx with
      | some le => (some le, 2)
      | none => (pyFindSub buffer [10] idx, 1)
    match found with
    | (none, _) => some none
    | (some line_end, line_break) =>
      let size_line :=
        bytesStrip
          (match pyFindSub (pySlice buffer idx (line_end : Int)) [59] 0 with
           | some k => (pySlice buffer idx (line_end : Int)).take k
           | none => pySlice buffer idx (line_end : Int))
      match pyIntHex size_line with
      | none => some none
      | some size =>
        let idx1 : Int := (line_end : Int) + line_break
        if (buffer.length : Int) < idx1 + size + line_break then some none
        else
          let idx2 : Int := idx1 + size
          if pySlice buffer idx2 (idx2 + 2) = [13, 10] then
            if size = 0 then some (some (idx2 + 2))
            else parse_chunked_end_aux buffer fuel (idx2 + 2)
          else if pySlice buffer idx2 (idx2 + 1) = [10] then
            if size = 0 then some (some (idx2 + 1))
            else parse_chunked_end_aux buffer fuel (idx2 + 1)
          else some none

/-- The function `parse_chunked_end(buffer, start)`.  Fuel `buffer.length + 1` covers
every terminating run of the source loop in which chunk sizes are
non-negative (each iteration then advances the index by at least two); a
run that revisits an index never terminates in the source (the state is
the index alone), and is mapped to `none` here. -/
def parse_chunked_end (buffer : List Nat) (start : Int) : Option Int :=
  match parse_chunked_end_aux buffer (buffer.length + 1) start with
  | none => none
  | some r => r

/-- The header terminator search of `extract_http_message`: prefer
`\r\n\r\n` anywhere at or after `start`, else accept `\n\n`. -/
def findHeaderEnd (buffer : List Nat) (start : Nat) : Option (Nat × Nat) :=
  match pyFindSub buffer [13, 10, 13, 10] (start : Int) with
  | some he => some (he, 4)
  | none =>
    match pyFindSub buffer [10, 10] (start : Int) with
    | some he => some (he, 2)
    | none => none

/-- The `body_end` resolution of `extract_http_message`: if a
content-length header is present its parsed value (0 on `ValueError`,
possibly negative since `int` accepts a sign) fixes the body length, with
a need-more-data check; otherwise if transfer-encoding contains `chunked`
the chunk walk decides; otherwise the body is empty. -/
def resolveBodyEnd (buffer : List Nat)
    (headers : List (List Nat × List Nat)) (body_start : Nat) : Option Int :=
  match lookupHdr headers (strBytes "content-length") with
  | some v =>
    let length : Int := (pyIntDec v).getD 0
    if (buffer.length : Int) < (body_start : Int) + length then none
    else some ((body_start : Int) + length)
  | none =>
    match lookupHdr headers (strBytes "transfer-encoding") with
    | some tv =>
      if containsSub (tv.map l1Lower) (strBytes "chunked") then
        parse_chunked_end buffer (body_start : Int)
      else some (body_start : Int)
    | none => some (body_start : Int)

/-- The function `extract_http_message(buffer)`: locate a start, find the header
terminator, parse headers, resolve the body end (content-length first,
then chunked transfer-encoding, else empty body) and split the buffer into
the message `buffer[start:body_end]` and the remaining bytes
`buffer[body_end:]`. -/
def extract_http_message (buffer : List Nat) :
    Option (List Nat × List Nat × List (List Nat × List Nat) × List Nat) :=
  match find_next_http_start buffer with
  | none => none
  | some (start, _) =>
    match findHeaderEnd buffer start with
    | none => none
    | some (header_end, header_sep) =>
      let pair := parse_headers (pySlice buffer (start : Int) (header_end : Int))
      match resolveBodyEnd buffer pair.2 (header_end + header_sep) with
      | none => none
      | some body_end =>
        some (pySlice buffer (start : Int) body_end, pair.1, pair.2,
          pyDropI buffer body_end)

/-- A message as yielded by the iterator: raw bytes, first line, headers. -/
abbrev Msg := List Nat × List Nat × List (List Nat × List Nat)

/-- The inner `while True` extraction loop of `iter_http_messages`, with
fuel bounding the number of extractions per read: extract until the framer
fails; on failure compact the buffer to its trailing `chunk_size` bytes
when it exceeds twice `chunk_size`.  Returns the messages emitted in this
round and the buffer carried to the next read. -/
def innerLoop (chunk_size : Nat) : Nat → List Nat → List Msg × List Nat
  | 0, buf => ([], buf)
  | fuel + 1, buf =>
    match extract_http_message buf with
    | none =>
      ([], if buf.length > chunk_size * 2 then buf.drop (buf.length - chunk_size) else buf)
    | some (m, fl, hs, rem) =>
      let out := innerLoop chunk_size fuel rem
      ((m, fl, hs) :: out.1, out.2)

/-- The outer read loop of `iter_http_messages` over the successive chunks
returned by `f.read(chunk_size)` (the file ends when the list does). -/
def outerLoop (chunk_size fuel : Nat) : List (List Nat) → List Nat → List Msg
  | [], _ => []
  | c :: cs, buf =>
    let out := innerLoop chunk_size fuel (buf ++ c)
    out.1 ++ outerLoop chunk_size fuel cs out.2

/-- The function `iter_http_messages`, as a function of the chunk sequence the file
yields. -/
def iter_http_messages (chunks : List (List Nat)) (chunk_size fuel : Nat) : List Msg :=
  outerLoop chunk_size fuel chunks []

/-- The request classification of `write_http_messages_as_xml`:
`bool(first_line) and any(first_line.upper().startswith(m) ...)`. -/
def isRequestMsg (first_line : List Nat) : Bool :=
  !first_line.isEmpty &&
    HTTP_METHODS.any (fun m => listPrefixEq m (l1Upper first_line))

/-- An item of the pairer: optional request and optional response. -/
abbrev Item := Option Msg × Option Msg

/-- Models `limit is not None and count_items >= limit`. -/
def limitHit (limit : Option Nat) (count : Nat) : Bool :=
  match limit with
  | some l => decide (count ≥ l)
  | none => false

/-- The request/response pairing loop of `write_http_messages_as_xml`
(XML serialisation omitted; this models exactly which `Item`s are emitted,
in order): a pending request is flushed unpaired when another request
arrives, paired when a response arrives; the item limit breaks the loop
after a message is handled; at end of stream the pending request is
flushed only if the limit was not reached. -/
def pairLoop (limit : Option Nat) : List Msg → Option Msg → Nat → List Item
  | [], pending, count =>
    match pending with
    | some p => if limitHit limit count then [] else [(some p, none)]
    | none => []
  | m :: rest, pending, count =>
    if isRequestMsg m.2.1 then
      match pending with
      | some p =>
        (some p, none) ::
          (if limitHit limit (count + 1) then []
           else pairLoop limit rest (some m) (count + 1))
      | none => pairLoop limit rest (some m) count
    else
      match pending with
      | some p =>
        (some p, some m) ::
          (if limitHit limit (count + 1) then []
           else pairLoop limit rest none (count + 1))
      | none =>
        (none, some m) ::
          (if limitHit limit (count + 1) then []
           else pairLoop limit rest none (count + 1))

/-- The item stream produced by `write_http_messages_as_xml` for a given
message stream and optional limit. -/
def write_http_messages_items (msgs : List Msg) (limit : Option Nat) : List Item :=
  pairLoop limit msgs none 0

/-- Relation `RangesFor base msgs ranges`: the byte ranges `[r.1, r.2)` (offsets
into `base`) correspond one-to-one, in order, to the emitted messages, and
each message's raw bytes are exactly the bytes of `base` at its range. -/
def RangesFor (base : List Nat) : List Msg → List (Nat × Nat) → Prop
  | [], [] => True
  | m :: ms, r :: rs =>
    r.1 ≤ r.2 ∧ r.2 ≤ base.length ∧ m.1 = (base.take r.2).drop r.1 ∧
      RangesFor base ms rs
  | _, _ => False

/-- Relation `RangesOrdered lo ranges`: starting at or after `lo`, the ranges are
monotonically non-decreasing and non-overlapping (each range ends at or
before the next begins). -/
def RangesOrdered (lo : Nat) : List (Nat × Nat) → Prop
  | [] => True
  | r :: rs => lo ≤ r.1 ∧ r.1 ≤ r.2 ∧ RangesOrdered r.2 rs

/-- Shift a range by `k` (rebasing buffer-local offsets to stream-global
offsets). -/
def shiftRange (k : Nat) (r : Nat × Nat) : Nat × Nat := (k + r.1, k + r.2)

/-! ### Basic lemmas about the Python slicing primitives -/

theorem pyNormIdx_le (L : Nat) (i : Int) : pyNormIdx L i ≤ L := by
  unfold pyNormIdx
  split
  · omega
  · exact min_le_right _ _

theorem pyNormIdx_natCast (L s : Nat) : pyNormIdx L (s : Int) = min s L := by
  unfold pyNormIdx
  rw [if_neg (by omega)]
  simp

/-- The message slice `buffer[start:body_end]` and the remainder
`buffer[body_end:]` split the buffer at one common normalised offset:
the message is a contiguous slice ending exactly where the remainder
begins. -/
theorem pySlice_pyDropI_decomp (b : List Nat) (s : Nat) (e : Int)
    (hs : s ≤ b.length) :
    ∃ s' e', s' ≤ e' ∧ e' ≤ b.length ∧
      pySlice b (s : Int) e = (b.take e').drop s' ∧ pyDropI b e = b.drop e' := by
  refine ⟨min s (pyNormIdx b.length e), pyNormIdx b.length e, min_le_right _ _,
    pyNormIdx_le _ _, ?_, rfl⟩
  unfold pySlice
  rw [pyNormIdx_natCast, min_eq_left hs]
  rcases le_total s (pyNormIdx b.length e) with h | h
  · rw [min_eq_left h]
  · rw [min_eq_right h]
    have hE : (b.take (pyNormIdx b.length e)).length = pyNormIdx b.length e := by
      rw [List.length_take]
      exact min_eq_left (pyNormIdx_le _ _)
    rw [List.drop_eq_nil_of_le (by omega), List.drop_eq_nil_of_le (by omega)]

theorem listPrefixEq_length {pat xs : List Nat} (h : listPrefixEq pat xs = true) :
    pat.length ≤ xs.length := by
  induction pat generalizing xs with
  | nil => simp
  | cons a as ih =>
    cases xs with
    | nil => simp [listPrefixEq] at h
    | cons b bs =>
      simp only [listPrefixEq, Bool.and_eq_true] at h
      simpa using Nat.succ_le_succ (ih h.2)

theorem findSubAux_bounds {pat : List Nat} : ∀ {xs : List Nat} {i k : Nat},
    findSubAux pat xs i = some k → i ≤ k ∧ k + pat.length ≤ i + xs.length := by
  intro xs
  induction xs with
  | nil =>
    intro i k h
    unfold findSubAux at h
    split at h
    · next hp =>
      cases h
      simp [List.isEmpty_iff] at hp
      simp [hp]
    · cases h
  | cons x rest ih =>
    intro i k h
    unfold findSubAux at h
    split at h
    · next hp =>
      cases h
      have := listPrefixEq_length hp
      constructor
      · exact le_refl _
      · simpa using this
    · have := ih h
      constructor
      · omega
      · simp only [List.length_cons]
        omega

theorem pyFindSub_bounds {xs pat : List Nat} {st : Int} {k : Nat}
    (h : pyFindSub xs pat st = some k) :
    pyNormIdx xs.length st ≤ k ∧ k + pat.length ≤ xs.length := by
  unfold pyFindSub at h
  cases hfa : findSubAux pat (xs.drop (pyNormIdx xs.length st)) 0 with
  | none => rw [hfa] at h; cases h
  | some off =>
    rw [hfa] at h
    simp only [Option.map_some'] at h
    cases h
    have hb := findSubAux_bounds hfa
    rw [List.length_drop] at hb
    have := pyNormIdx_le xs.length st
    constructor
    · omega
    · omega

theorem findHeaderEnd_bounds {buffer : List Nat} {start he sep : Nat}
    (hstart : start ≤ buffer.length)
    (h : findHeaderEnd buffer start = some (he, sep)) :
    start ≤ he ∧ he + sep ≤ buffer.length ∧ 2 ≤ sep := by
  unfold findHeaderEnd at h
  cases h4 : pyFindSub buffer [13, 10, 13, 10] (start : Int) with
  | some v =>
    rw [h4] at h
    cases h
    have hb := pyFindSub_bounds h4
    rw [pyNormIdx_natCast, min_eq_left hstart] at hb
    simp only [List.length_cons, List.length_nil] at hb
    exact ⟨hb.1, by omega, by omega⟩
  | none =>
    rw [h4] at h
    cases h2 : pyFindSub buffer [10, 10] (start : Int) with
    | some v =>
      rw [h2] at h
      cases h
      have hb := pyFindSub_bounds h2
      rw [pyNormIdx_natCast, min_eq_left hstart] at hb
      simp only [List.length_cons, List.length_nil] at hb
      exact ⟨hb.1, by omega, by omega⟩
    | none => rw [h2] at h; cases h

/-! ### The start locator -/

theorem skipCRLFAux_ge (b : List Nat) :
    ∀ (fuel s : Nat), s ≤ skipCRLFAux b fuel s := by
  intro fuel
  induction fuel with
  | zero => intro s; exact le_refl _
  | succ n ih =>
    intro s
    unfold skipCRLFAux
    split
    · exact le_trans (by omega) (ih (s + 1))
    · exact le_refl _

theorem skipCRLFAux_le_length (b : List Nat) :
    ∀ (fuel s : Nat), s ≤ b.length → skipCRLFAux b fuel s ≤ b.length := by
  intro fuel
  induction fuel with
  | zero => intro s hs; exact hs
  | succ n ih =>
    intro s hs
    unfold skipCRLFAux
    split
    · next hc => exact ih (s + 1) (by omega)
    · exact hs

theorem skipCRLFAux_skipped (b : List Nat) :
    ∀ (fuel s : Nat), ∀ k, s ≤ k → k < skipCRLFAux b fuel s →
      isCRLFb (byteAt b k) = true := by
  intro fuel
  induction fuel with
  | zero => intro s k h1 h2; unfold skipCRLFAux at h2; omega
  | succ n ih =>
    intro s k h1 h2
    unfold skipCRLFAux at h2
    split at h2
    · next hc =>
      rcases Nat.eq_or_lt_of_le h1 with rfl | hlt
      · exact hc.2
      · exact ih (s + 1) k hlt h2
    · omega

theorem skipCRLFAux_stop (b : List Nat) :
    ∀ (fuel s : Nat), b.length ≤ s + fuel →
      skipCRLFAux b fuel s < b.length →
      isCRLFb (byteAt b (skipCRLFAux b fuel s)) = false := by
  intro fuel
  induction fuel with
  | zero =>
    intro s hf h
    unfold skipCRLFAux at h
    omega
  | succ n ih =>
    intro s hf h
    unfold skipCRLFAux at h ⊢
    split at h
    · next hc =>
      rw [if_pos hc]
      exact ih (s + 1) (by omega) h
    · next hc =>
      rw [if_neg hc]
      rcases Bool.eq_false_or_eq_true (isCRLFb (byteAt b s)) with ht | hfalse
      · exact absurd ⟨h, ht⟩ hc
      · exact hfalse

theorem skipCRLF_ge (b : List Nat) (s : Nat) : s ≤ skipCRLF b s :=
  skipCRLFAux_ge b _ s

theorem skipCRLF_le_length (b : List Nat) (s : Nat) (hs : s ≤ b.length) :
    skipCRLF b s ≤ b.length :=
  skipCRLFAux_le_length b _ s hs

theorem skipCRLF_skipped (b : List Nat) (s : Nat) :
    ∀ k, s ≤ k → k < skipCRLF b s → isCRLFb (byteAt b k) = true :=
  skipCRLFAux_skipped b _ s

theorem skipCRLF_stop (b : List Nat) (s : Nat)
    (h : skipCRLF b s < b.length) : isCRLFb (byteAt b (skipCRLF b s)) = false :=
  skipCRLFAux_stop b _ s (by omega) h

theorem firstIdxFrom_some {p : Nat → Bool} :
    ∀ {fuel i r : Nat}, firstIdxFrom p fuel i = some r →
      i ≤ r ∧ r < i + fuel ∧ p r = true ∧ ∀ k, i ≤ k → k < r → p k = false := by
  intro fuel
  induction fuel with
  | zero => intro i r h; cases h
  | succ n ih =>
    intro i r h
    unfold firstIdxFrom at h
    split at h
    · next hp =>
      cases h
      exact ⟨le_refl _, by omega, hp, fun k h1 h2 => absurd h1 (by omega)⟩
    · next hp =>
      obtain ⟨h1, h2, h3, h4⟩ := ih h
      refine ⟨by omega, by omega, h3, fun k hk1 hk2 => ?_⟩
      rcases Nat.eq_or_lt_of_le hk1 with rfl | hlt
      · exact Bool.eq_false_iff.mpr hp
      · exact h4 k hlt hk2

theorem firstIdxFrom_none {p : Nat → Bool} :
    ∀ {fuel i : Nat}, firstIdxFrom p fuel i = none →
      ∀ k, i ≤ k → k < i + fuel → p k = false := by
  intro fuel
  induction fuel with
  | zero => intro i _ k h1 h2; omega
  | succ n ih =>
    intro i h k h1 h2
    unfold firstIdxFrom at h
    split at h
    · cases h
    · next hp =>
      rcases Nat.eq_or_lt_of_le h1 with rfl | hlt
      · exact Bool.eq_false_iff.mpr hp
      · exact ih h k hlt (by omega)

theorem firstIdxFrom_intro {p : Nat → Bool} :
    ∀ {fuel i r : Nat}, i ≤ r → r < i + fuel → p r = true →
      (∀ k, i ≤ k → k < r → p k = false) → firstIdxFrom p fuel i = some r := by
  intro fuel
  induction fuel with
  | zero => intro i r h1 h2; omega
  | succ n ih =>
    intro i r h1 h2 h3 h4
    unfold firstIdxFrom
    rcases Nat.eq_or_lt_of_le h1 with rfl | hlt
    · rw [if_pos h3]
    · rw [if_neg]
      · exact ih (by omega) (by omega) h3 (fun k hk1 hk2 => h4 k (by omega) hk2)
      · rw [h4 i (le_refl _) hlt]
        simp

theorem reqSearch_le {b : List Nat} {i : Nat} (h : reqSearch b = some i) :
    i ≤ b.length := by
  have := (firstIdxFrom_some h).2.1
  omega

theorem respSearch_le {b : List Nat} {j : Nat} (h : respSearch b = some j) :
    j ≤ b.length := by
  have := (firstIdxFrom_some h).2.1
  omega

theorem find_next_http_start_le {b : List Nat} {st : Nat} {k : HKind}
    (h : find_next_http_start b = some (st, k)) : st ≤ b.length := by
  unfold find_next_http_start at h
  split at h
  · cases h
  · next i heqr _ =>
    cases h
    exact skipCRLF_le_length _ _ (reqSearch_le heqr)
  · next j _ heqs =>
    cases h
    exact skipCRLF_le_length _ _ (respSearch_le heqs)
  · next i j heqr heqs =>
    split at h
    · cases h
      exact skipCRLF_le_length _ _ (reqSearch_le heqr)
    · cases h
      exact skipCRLF_le_length _ _ (respSearch_le heqs)

/-! ### Structure of one extraction step -/

/-- Every successful extraction splits the buffer at one offset `e`: the
message is the slice `[s, e)` of the buffer and the remaining bytes are
exactly the suffix from `e` on.  (This holds for every branch of the body
resolution, including a negative content-length value, thanks to Python's
slice normalisation.) -/
theorem extract_decomp {buffer m fl : List Nat}
    {hs : List (List Nat × List Nat)} {rem : List Nat}
    (h : extract_http_message buffer = some (m, fl, hs, rem)) :
    ∃ s e, s ≤ e ∧ e ≤ buffer.length ∧
      m = (buffer.take e).drop s ∧ rem = buffer.drop e := by
  unfold extract_http_message at h
  split at h
  · cases h
  · next start kind heqfind =>
    split at h
    · cases h
    · next header_end header_sep heqhe =>
      dsimp only at h
      split at h
      · cases h
      · next body_end heqbe =>
        simp only [Option.some.injEq, Prod.mk.injEq] at h
        obtain ⟨hm, _, _, hrem⟩ := h
        obtain ⟨s', e', h1, h2, h3, h4⟩ :=
          pySlice_pyDropI_decomp buffer start body_end
            (find_next_http_start_le heqfind)
        exact ⟨s', e', h1, h2, by rw [← hm, h3], by rw [← hrem, h4]⟩

/-! ### Range bookkeeping -/

theorem RangesOrdered_mono {lo lo' : Nat} {rs : List (Nat × Nat)}
    (h : lo' ≤ lo) (hr : RangesOrdered lo rs) : RangesOrdered lo' rs := by
  cases rs with
  | nil => trivial
  | cons r rs' =>
    obtain ⟨h1, h2, h3⟩ := hr
    exact ⟨le_trans h h1, h2, h3⟩

theorem RangesOrdered_lo_le {rs : List (Nat × Nat)} :
    ∀ {lo : Nat}, RangesOrdered lo rs → ∀ r ∈ rs, lo ≤ r.1 ∧ r.1 ≤ r.2 := by
  induction rs with
  | nil => intro lo _ r hr; cases hr
  | cons x rs' ih =>
    intro lo h r hr
    obtain ⟨h1, h2, h3⟩ := h
    rcases List.mem_cons.mp hr with rfl | hr'
    · exact ⟨h1, h2⟩
    · have := ih h3 r hr'
      exact ⟨le_trans h1 (le_trans h2 this.1), this.2⟩

theorem RangesOrdered_append {xs : List (Nat × Nat)} :
    ∀ {lo mid : Nat} {ys : List (Nat × Nat)}, RangesOrdered lo xs →
      (∀ r ∈ xs, r.2 ≤ mid) → lo ≤ mid → RangesOrdered mid ys →
      RangesOrdered lo (xs ++ ys) := by
  induction xs with
  | nil => intro lo mid ys _ _ hlm hy; exact RangesOrdered_mono hlm hy
  | cons x xs' ih =>
    intro lo mid ys hx hall hlm hy
    obtain ⟨h1, h2, h3⟩ := hx
    refine ⟨h1, h2, ih h3 (fun r hr => hall r (List.mem_cons_of_mem _ hr))
      (hall x (List.mem_cons_self _ _)) hy⟩

theorem RangesOrdered_shift {rs : List (Nat × Nat)} :
    ∀ {lo k : Nat}, RangesOrdered lo rs →
      RangesOrdered (k + lo) (rs.map (shiftRange k)) := by
  induction rs with
  | nil => intro lo k _; trivial
  | cons r rs' ih =>
    intro lo k h
    obtain ⟨h1, h2, h3⟩ := h
    refine ⟨?_, ?_, ?_⟩
    · simp only [shiftRange]
      omega
    · simp only [shiftRange]
      omega
    · have := ih (k := k) h3
      simpa [shiftRange] using this

theorem RangesOrdered_pairwise {rs : List (Nat × Nat)} :
    ∀ {lo : Nat}, RangesOrdered lo rs →
      List.Pairwise (fun a b : Nat × Nat => a.2 ≤ b.1) rs := by
  induction rs with
  | nil => intro lo _; exact List.Pairwise.nil
  | cons r rs' ih =>
    intro lo h
    obtain ⟨h1, h2, h3⟩ := h
    exact List.Pairwise.cons (fun b hb => (RangesOrdered_lo_le h3 b hb).1) (ih h3)

theorem RangesFor_append {base : List Nat} {ms1 : List Msg} :
    ∀ {rs1 : List (Nat × Nat)} {ms2 : List Msg} {rs2 : List (Nat × Nat)},
      RangesFor base ms1 rs1 → RangesFor base ms2 rs2 →
      RangesFor base (ms1 ++ ms2) (rs1 ++ rs2) := by
  induction ms1 with
  | nil =>
    intro rs1 ms2 rs2 h1 h2
    cases rs1 with
    | nil => simpa using h2
    | cons r rs' => exact absurd h1 (by simp [RangesFor])
  | cons m ms' ih =>
    intro rs1 ms2 rs2 h1 h2
    cases rs1 with
    | nil => exact absurd h1 (by simp [RangesFor])
    | cons r rs' =>
      obtain ⟨ha, hb, hc, hd⟩ := h1
      exact ⟨ha, hb, hc, ih hd h2⟩

theorem RangesFor_mem {base : List Nat} {ms : List Msg} :
    ∀ {rs : List (Nat × Nat)}, RangesFor base ms rs → ∀ m ∈ ms,
      ∃ r ∈ rs, r.1 ≤ r.2 ∧ r.2 ≤ base.length ∧
        m.1 = (base.take r.2).drop r.1 := by
  induction ms with
  | nil => intro rs _ m hm; cases hm
  | cons m0 ms' ih =>
    intro rs h m hm
    cases rs with
    | nil => exact absurd h (by simp [RangesFor])
    | cons r rs' =>
      obtain ⟨ha, hb, hc, hd⟩ := h
      rcases List.mem_cons.mp hm with rfl | hm'
      · exact ⟨r, List.mem_cons_self _ _, ha, hb, hc⟩
      · obtain ⟨r', hr1, hr2⟩ := ih hd m hm'
        exact ⟨r', List.mem_cons_of_mem _ hr1, hr2⟩

theorem RangesFor_extend {base tail : List Nat} {ms : List Msg} :
    ∀ {rs : List (Nat × Nat)}, RangesFor base ms rs →
      RangesFor (base ++ tail) ms rs := by
  induction ms with
  | nil =>
    intro rs h
    cases rs with
    | nil => trivial
    | cons r rs' => exact absurd h (by simp [RangesFor])
  | cons m ms' ih =>
    intro rs h
    cases rs with
    | nil => exact absurd h (by simp [RangesFor])
    | cons r rs' =>
      obtain ⟨ha, hb, hc, hd⟩ := h
      refine ⟨ha, by simp; omega, ?_, ih hd⟩
      rw [hc, List.take_append_eq_append_take,
        Nat.sub_eq_zero_of_le hb, List.take_zero, List.append_nil]

theorem RangesFor_of_drop {I : List Nat} {g : Nat} (hg : g ≤ I.length)
    {ms : List Msg} :
    ∀ {rs : List (Nat × Nat)}, RangesFor (I.drop g) ms rs →
      RangesFor I ms (rs.map (shiftRange g)) := by
  induction ms with
  | nil =>
    intro rs h
    cases rs with
    | nil => trivial
    | cons r rs' => exact absurd h (by simp [RangesFor])
  | cons m ms' ih =>
    intro rs h
    cases rs with
    | nil => exact absurd h (by simp [RangesFor])
    | cons r rs' =>
      obtain ⟨ha, hb, hc, hd⟩ := h
      rw [List.length_drop] at hb
      refine ⟨by simp [shiftRange]; omega, by simp [shiftRange]; omega, ?_, ih hd⟩
      show m.1 = (I.take (g + r.2)).drop (g + r.1)
      rw [hc, List.take_drop, List.drop_drop]
/-- One round of the inner extraction loop: the carried-over buffer is a
suffix of the incoming buffer, and the messages emitted correspond to
ordered, non-overlapping ranges of the incoming buffer, all of which end
at or before the point where the carried-over suffix begins. -/
theorem innerLoop_ranges (cs : Nat) : ∀ (fuel : Nat) (buf : List Nat),
    ∃ (ranges : List (Nat × Nat)) (dEnd : Nat),
      dEnd ≤ buf.length ∧ (innerLoop cs fuel buf).2 = buf.drop dEnd ∧
      RangesFor buf (innerLoop cs fuel buf).1 ranges ∧
      RangesOrdered 0 ranges ∧ ∀ r ∈ ranges, r.2 ≤ dEnd := by
  intro fuel
  induction fuel with
  | zero =>
    intro buf
    exact ⟨[], 0, Nat.zero_le _, by simp [innerLoop], trivial, trivial,
      fun r hr => absurd hr (List.not_mem_nil r)⟩
  | succ n ih =>
    intro buf
    cases hext : extract_http_message buf with
    | none =>
      refine ⟨[], if buf.length > cs * 2 then buf.length - cs else 0, ?_, ?_, ?_,
        trivial, fun r hr => absurd hr (List.not_mem_nil r)⟩
      · split <;> omega
      · simp only [innerLoop, hext]
        split
        · rfl
        · rw [List.drop_zero]
      · simp only [innerLoop, hext]
        trivial
    | some out =>
      obtain ⟨m, fl, hs, rem⟩ := out
      obtain ⟨s, e, hse, hel, hm, hrem⟩ := extract_decomp hext
      obtain ⟨rs', dEnd', hd1, hd2, hd3, hd4, hd5⟩ := ih rem
      have hremlen : rem.length = buf.length - e := by
        rw [hrem, List.length_drop]
      refine ⟨(s, e) :: rs'.map (shiftRange e), e + dEnd', by omega, ?_, ?_, ?_, ?_⟩
      · simp only [innerLoop, hext]
        rw [hd2, hrem, List.drop_drop]
      · simp only [innerLoop, hext]
        refine ⟨hse, hel, hm, ?_⟩
        have hd3' : RangesFor (buf.drop e) (innerLoop cs n rem).1 rs' := by
          rw [← hrem]
          exact hd3
        exact RangesFor_of_drop (I := buf) (g := e) hel hd3'
      · refine ⟨Nat.zero_le _, hse, ?_⟩
        have := RangesOrdered_shift (k := e) hd4
        simpa using this
      · intro r hr
        rcases List.mem_cons.mp hr with rfl | hr'
        · omega
        · obtain ⟨r', hr1, rfl⟩ := List.mem_map.mp hr'
          have := hd5 r' hr1
          simp only [shiftRange]
          omega

/-- The outer read loop: if the current buffer is the part of the input
stream from global offset `g` on (minus the chunks not yet read), then all
messages it will emit lie at ordered, non-overlapping ranges of the input
at or after `g`. -/
theorem outerLoop_ranges (cs fuel : Nat) :
    ∀ (chunks : List (List Nat)) (buf : List Nat) (g : Nat) (I : List Nat),
      g ≤ I.length → I.drop g = buf ++ chunks.flatten →
      ∃ ranges, RangesFor I (outerLoop cs fuel chunks buf) ranges ∧
        RangesOrdered g ranges := by
  intro chunks
  induction chunks with
  | nil => intro buf g I _ _; exact ⟨[], trivial, trivial⟩
  | cons c rest ih =>
    intro buf g I hg h
    have h' : I.drop g = (buf ++ c) ++ rest.flatten := by
      rw [h, List.flatten_cons, List.append_assoc]
    obtain ⟨rs, dEnd, hd1, hd2, hd3, hd4, hd5⟩ := innerLoop_ranges cs fuel (buf ++ c)
    have hlen : I.length - g = (buf ++ c).length + rest.flatten.length := by
      have := congrArg List.length h'
      rw [List.length_drop, List.length_append] at this
      exact this
    have hg' : g + dEnd ≤ I.length := by omega
    have hdrop : I.drop (g + dEnd) = (innerLoop cs fuel (buf ++ c)).2 ++ rest.flatten := by
      rw [hd2, ← List.drop_drop, h', List.drop_append_eq_append_drop,
        Nat.sub_eq_zero_of_le hd1, List.drop_zero]
    obtain ⟨rs2, hr1, hr2⟩ := ih (innerLoop cs fuel (buf ++ c)).2 (g + dEnd) I hg' hdrop
    refine ⟨rs.map (shiftRange g) ++ rs2, ?_, ?_⟩
    · show RangesFor I (outerLoop cs fuel (c :: rest) buf) _
      simp only [outerLoop]
      refine RangesFor_append ?_ hr1
      have hpre : RangesFor (I.drop g) (innerLoop cs fuel (buf ++ c)).1 rs := by
        rw [h']
        exact RangesFor_extend hd3
      exact RangesFor_of_drop hg hpre
    · refine RangesOrdered_append ?_ ?_ (by omega) hr2
      · have := RangesOrdered_shift (k := g) hd4
        simpa using this
      · intro r hr
        obtain ⟨r', hr1', rfl⟩ := List.mem_map.mp hr
        have := hd5 r' hr1'
        simp only [shiftRange]
        omega


/-- C1: For every input stream (any chunking, any chunk-size parameter,
any fuel), the messages emitted by `iter_http_messages` occupy byte ranges
of the concatenated input that are monotonically non-decreasing and
pairwise non-overlapping: each emitted message is exactly the slice of the
input at its range, and every range ends at or before the next one begins.
This holds for arbitrary byte content, in particular also when a message
carries a content-length header whose value parses as a negative integer
(the slice and the remainder are split at the same normalised offset). -/
theorem c1_message_ranges_monotone_disjoint
    (chunks : List (List Nat)) (chunk_size fuel : Nat) :
    ∃ ranges : List (Nat × Nat),
      RangesFor chunks.flatten (iter_http_messages chunks chunk_size fuel) ranges ∧
      RangesOrdered 0 ranges ∧
      List.Pairwise (fun a b : Nat × Nat => a.2 ≤ b.1) ranges := by
  obtain ⟨rs, h1, h2⟩ := outerLoop_ranges chunk_size fuel chunks [] 0
    chunks.flatten (Nat.zero_le _) (by simp)
  exact ⟨rs, h1, h2, RangesOrdered_pairwise h2⟩

/-- Every message emitted by the inner loop comes from a successful
`extract_http_message` call on some buffer. -/
theorem innerLoop_mem_extract {cs : Nat} : ∀ {fuel : Nat} {buf : List Nat} {m : Msg},
    m ∈ (innerLoop cs fuel buf).1 →
    ∃ b rem, extract_http_message b = some (m.1, m.2.1, m.2.2, rem) := by
  intro fuel
  induction fuel with
  | zero => intro buf m hm; exact absurd hm (List.not_mem_nil m)
  | succ n ih =>
    intro buf m hm
    cases hext : extract_http_message buf with
    | none =>
      rw [show (innerLoop cs (n + 1) buf).1 = [] by simp [innerLoop, hext]] at hm
      exact absurd hm (List.not_mem_nil m)
    | some out =>
      obtain ⟨m0, fl0, hs0, rem0⟩ := out
      rw [show (innerLoop cs (n + 1) buf).1 =
        (m0, fl0, hs0) :: (innerLoop cs n rem0).1 by simp [innerLoop, hext]] at hm
      rcases List.mem_cons.mp hm with rfl | hm'
      · exact ⟨buf, rem0, hext⟩
      · exact ih hm'

/-- Every message emitted by the iterator comes from a successful
`extract_http_message` call. -/
theorem outerLoop_mem_extract {cs fuel : Nat} :
    ∀ {chunks : List (List Nat)} {buf : List Nat} {m : Msg},
      m ∈ outerLoop cs fuel chunks buf →
      ∃ b rem, extract_http_message b = some (m.1, m.2.1, m.2.2, rem) := by
  intro chunks
  induction chunks with
  | nil => intro buf m hm; exact absurd hm (List.not_mem_nil m)
  | cons c rest ih =>
    intro buf m hm
    rw [show outerLoop cs fuel (c :: rest) buf =
      (innerLoop cs fuel (buf ++ c)).1 ++
        outerLoop cs fuel rest (innerLoop cs fuel (buf ++ c)).2 by
      simp [outerLoop]] at hm
    rcases List.mem_append.mp hm with hm' | hm'
    · exact innerLoop_mem_extract hm'
    · exact ih hm'

/-- A successfully extracted message whose (returned) header map parses
content-length to a non-negative integer `n` contains its full `n`-byte
body: the message spans the start line, headers, terminator (at least two
bytes) and `n` body bytes, all of which were present in the buffer. -/
theorem extract_contentLength_body_buffered {buffer m fl : List Nat}
    {hs : List (List Nat × List Nat)} {rem : List Nat}
    (h : extract_http_message buffer = some (m, fl, hs, rem))
    {v : List Nat} (hv : lookupHdr hs (strBytes "content-length") = some v)
    {n : Int} (hn : pyIntDec v = some n) (hpos : 0 ≤ n) :
    n.toNat + 2 ≤ m.length ∧ m.length ≤ buffer.length := by
  unfold extract_http_message at h
  split at h
  · cases h
  · next start kind heqfind =>
    split at h
    · cases h
    · next header_end header_sep heqhe =>
      dsimp only at h
      split at h
      · cases h
      · next body_end heqbe =>
        simp only [Option.some.injEq, Prod.mk.injEq] at h
        obtain ⟨hm, hfl, hhs, hrem⟩ := h
        rw [hhs] at heqbe
        unfold resolveBodyEnd at heqbe
        rw [hv] at heqbe
        dsimp only at heqbe
        rw [hn] at heqbe
        simp only [Option.getD_some] at heqbe
        split at heqbe
        · cases heqbe
        · next hle =>
          simp only [Option.some.injEq] at heqbe
          have hstart : start ≤ buffer.length := find_next_http_start_le heqfind
          obtain ⟨hsh, hhb, hsep⟩ := findHeaderEnd_bounds hstart heqhe
          rw [← heqbe] at hm
          have hlei : ((header_end + header_sep : Nat) : Int) + n ≤ (buffer.length : Int) := by
            omega
          have hE : pyNormIdx buffer.length (((header_end + header_sep : Nat) : Int) + n)
              = header_end + header_sep + n.toNat := by
            unfold pyNormIdx
            rw [if_neg (by omega)]
            omega
          have hS : pyNormIdx buffer.length ((start : Nat) : Int) = start := by
            rw [pyNormIdx_natCast]
            omega
          have hmlen : m.length = header_end + header_sep + n.toNat - start := by
            rw [← hm]
            unfold pySlice
            rw [hE, hS, List.length_drop, List.length_take]
            omega
          constructor
          · omega
          · omega

/-- C6: A message that the iterator emits always contains its complete
declared body: whenever an emitted message's header map has a
content-length value that parses as a non-negative integer `n`, the
message itself is more than `n` bytes long and (being a slice of the
input) fits inside the concatenated input.  Consequently, an input that
contains a request declaring `Content-Length: 999999` but holds fewer
bytes than that can never cause that message to be emitted; the iterator
simply ends (it is a total function of the input stream). -/
theorem c6_emitted_message_contains_declared_body
    (chunks : List (List Nat)) (chunk_size fuel : Nat) (m fl : List Nat)
    (hs : List (List Nat × List Nat)) (v : List Nat) (n : Int)
    (hmem : (m, fl, hs) ∈ iter_http_messages chunks chunk_size fuel)
    (hv : lookupHdr hs (strBytes "content-length") = some v)
    (hn : pyIntDec v = some n) (hpos : 0 ≤ n) :
    n.toNat + 2 ≤ m.length ∧ m.length ≤ chunks.flatten.length := by
  obtain ⟨b, rem, hext⟩ := outerLoop_mem_extract hmem
  have h1 := extract_contentLength_body_buffered hext hv hn hpos
  obtain ⟨rs, hr1, hr2⟩ := outerLoop_ranges chunk_size fuel chunks [] 0
    chunks.flatten (Nat.zero_le _) (by simp)
  obtain ⟨r, hrmem, hr3, hr4, hr5⟩ := RangesFor_mem hr1 (m, fl, hs) hmem
  have hmlen : m.length ≤ chunks.flatten.length := by
    have : m = (chunks.flatten.take r.2).drop r.1 := hr5
    rw [this, List.length_drop, List.length_take]
    omega
  exact ⟨h1.1, hmlen⟩

/-! ### Unfolding helpers for the framer -/

theorem extract_http_message_nil : extract_http_message [] = none := by decide

/-- Unfolds `extract_http_message` in terms of the resolved body end, once the
locator and the header-terminator search outcomes are known. -/
theorem extract_eq_of {buffer : List Nat} {start : Nat} {kind : HKind}
    {header_end header_sep : Nat}
    (hfind : find_next_http_start buffer = some (start, kind))
    (hhe : findHeaderEnd buffer start = some (header_end, header_sep)) :
    extract_http_message buffer =
      (match resolveBodyEnd buffer
          (parse_headers (pySlice buffer (start : Int) (header_end : Int))).2
          (header_end + header_sep) with
       | none => none
       | some body_end =>
         some (pySlice buffer (start : Int) body_end,
           (parse_headers (pySlice buffer (start : Int) (header_end : Int))).1,
           (parse_headers (pySlice buffer (start : Int) (header_end : Int))).2,
           pyDropI buffer body_end)) := by
  unfold extract_http_message
  simp only [hfind, hhe]

/-- C2 counterexample: a message whose content-length value `abc` does not
parse but whose transfer-encoding contains `chunked`.  The claim predicts
the body end is determined by chunked framing (which here would consume
the whole 82-byte buffer, as `parse_chunked_end` confirms); the code
instead falls back to body length 0, emitting only the 68-byte header
block and leaving the chunk bytes in the remainder. -/
theorem c2_counterexample_malformed_cl_with_chunked :
    extract_http_message (strBytes "POST / HTTP/1.1\r\nContent-Length: abc\r\nTransfer-Encoding: chunked\r\n\r\n4\r\nWiki\r\n0\r\n\r\n") =
      some (strBytes "POST / HTTP/1.1\r\nContent-Length: abc\r\nTransfer-Encoding: chunked\r\n\r\n",
        strBytes "POST / HTTP/1.1",
        [(strBytes "content-length", strBytes "abc"),
         (strBytes "transfer-encoding", strBytes "chunked")],
        strBytes "4\r\nWiki\r\n0\r\n\r\n") ∧
    parse_chunked_end (strBytes "POST / HTTP/1.1\r\nContent-Length: abc\r\nTransfer-Encoding: chunked\r\n\r\n4\r\nWiki\r\n0\r\n\r\n") 68 =
      some 82 ∧
    strBytes "POST / HTTP/1.1\r\nContent-Length: abc\r\nTransfer-Encoding: chunked\r\n\r\n" ≠
      strBytes "POST / HTTP/1.1\r\nContent-Length: abc\r\nTransfer-Encoding: chunked\r\n\r\n4\r\nWiki\r\n0\r\n\r\n" := by
  refine ⟨by decide, by decide, by decide⟩

/-- C2 (amended): once a start and header terminator are located and the
headers parsed, the body end is decided as follows.  If a content-length
header is present, its value is parsed by `int` (sign accepted): on
success the parsed integer is the body length (need-more-data if not
buffered), on failure the body length is 0 — in both cases the chunked
walk is never consulted.  Only when no content-length header exists does a
transfer-encoding containing `chunked` route to the chunk walk; otherwise
the body is empty. -/
theorem c2_amended_body_length_decision (buffer : List Nat) (start : Nat)
    (kind : HKind) (header_end header_sep : Nat) (fl : List Nat)
    (hd : List (List Nat × List Nat))
    (hfind : find_next_http_start buffer = some (start, kind))
    (hhe : findHeaderEnd buffer start = some (header_end, header_sep))
    (hph : parse_headers (pySlice buffer (start : Int) (header_end : Int)) = (fl, hd)) :
    (∀ v n, lookupHdr hd (strBytes "content-length") = some v →
      pyIntDec v = some n →
      extract_http_message buffer =
        (if (buffer.length : Int) < ((header_end + header_sep : Nat) : Int) + n then none
         else some (pySlice buffer (start : Int) (((header_end + header_sep : Nat) : Int) + n),
           fl, hd, pyDropI buffer (((header_end + header_sep : Nat) : Int) + n)))) ∧
    (∀ v, lookupHdr hd (strBytes "content-length") = some v →
      pyIntDec v = none →
      extract_http_message buffer =
        some (pySlice buffer (start : Int) ((header_end + header_sep : Nat) : Int),
          fl, hd, pyDropI buffer ((header_end + header_sep : Nat) : Int))) ∧
    (∀ tv, lookupHdr hd (strBytes "content-length") = none →
      lookupHdr hd (strBytes "transfer-encoding") = some tv →
      containsSub (tv.map l1Lower) (strBytes "chunked") = true →
      extract_http_message buffer =
        (match parse_chunked_end buffer ((header_end + header_sep : Nat) : Int) with
         | none => none
         | some ce => some (pySlice buffer (start : Int) ce, fl, hd, pyDropI buffer ce))) ∧
    (lookupHdr hd (strBytes "content-length") = none →
      (∀ tv, lookupHdr hd (strBytes "transfer-encoding") = some tv →
        containsSub (tv.map l1Lower) (strBytes "chunked") = false) →
      extract_http_message buffer =
        some (pySlice buffer (start : Int) ((header_end + header_sep : Nat) : Int),
          fl, hd, pyDropI buffer ((header_end + header_sep : Nat) : Int))) := by
  have hx := extract_eq_of hfind hhe
  rw [hph] at hx
  have hbs : header_end + header_sep ≤ buffer.length :=
    (findHeaderEnd_bounds (find_next_http_start_le hfind) hhe).2.1
  refine ⟨?_, ?_, ?_, ?_⟩
  · intro v n hv hn
    rw [hx]
    unfold resolveBodyEnd
    simp only [hv, hn, Option.getD_some]
    by_cases hc : (buffer.length : Int) < ((header_end + header_sep : Nat) : Int) + n
    · simp only [if_pos hc]
    · simp only [if_neg hc]
  · intro v hv hn
    rw [hx]
    unfold resolveBodyEnd
    simp only [hv, hn, Option.getD_none]
    rw [if_neg (by omega)]
    simp
  · intro tv hcl hte hch
    rw [hx]
    unfold resolveBodyEnd
    simp only [hcl, hte, hch, if_true]
  · intro hcl hte
    rw [hx]
    unfold resolveBodyEnd
    simp only [hcl]
    cases hte' : lookupHdr hd (strBytes "transfer-encoding") with
    | none => simp
    | some tv =>
      simp only [hte tv hte', Bool.false_eq_true, if_false]

/-- C2 amended, witness: the counterexample input instantiates the
malformed-content-length branch. -/
theorem c2_amended_witness :
    parse_headers (pySlice (strBytes "POST / HTTP/1.1\r\nContent-Length: abc\r\nTransfer-Encoding: chunked\r\n\r\n4\r\nWiki\r\n0\r\n\r\n") 0 64) =
      (strBytes "POST / HTTP/1.1",
        [(strBytes "content-length", strBytes "abc"),
         (strBytes "transfer-encoding", strBytes "chunked")]) ∧
    extract_http_message (strBytes "POST / HTTP/1.1\r\nContent-Length: abc\r\nTransfer-Encoding: chunked\r\n\r\n4\r\nWiki\r\n0\r\n\r\n") =
      some (pySlice (strBytes "POST / HTTP/1.1\r\nContent-Length: abc\r\nTransfer-Encoding: chunked\r\n\r\n4\r\nWiki\r\n0\r\n\r\n") 0 68,
        strBytes "POST / HTTP/1.1",
        [(strBytes "content-length", strBytes "abc"),
         (strBytes "transfer-encoding", strBytes "chunked")],
        pyDropI (strBytes "POST / HTTP/1.1\r\nContent-Length: abc\r\nTransfer-Encoding: chunked\r\n\r\n4\r\nWiki\r\n0\r\n\r\n") 68) := by
  refine ⟨by decide, ?_⟩
  exact (c2_amended_body_length_decision _ 0 HKind.request 64 4
    (strBytes "POST / HTTP/1.1")
    [(strBytes "content-length", strBytes "abc"),
     (strBytes "transfer-encoding", strBytes "chunked")]
    (by decide) (by decide) (by decide)).2.1 (strBytes "abc") (by decide) (by decide)

/-- C4: when a header block supplies both a content-length (parsing to a
non-negative `n`) and a chunked transfer-encoding, content-length wins:
the body end is `body_start + n` regardless of what the chunk walk would
say, and the message/remainder split is determined by that fixed length
alone. -/
theorem c4_content_length_precedence (buffer : List Nat) (start : Nat)
    (kind : HKind) (header_end header_sep : Nat) (fl v tv : List Nat)
    (hd : List (List Nat × List Nat)) (n : Int)
    (hfind : find_next_http_start buffer = some (start, kind))
    (hhe : findHeaderEnd buffer start = some (header_end, header_sep))
    (hph : parse_headers (pySlice buffer (start : Int) (header_end : Int)) = (fl, hd))
    (hcl : lookupHdr hd (strBytes "content-length") = some v)
    (_hte : lookupHdr hd (strBytes "transfer-encoding") = some tv)
    (_hch : containsSub (tv.map l1Lower) (strBytes "chunked") = true)
    (hn : pyIntDec v = some n) (_hpos : 0 ≤ n)
    (hlen : ((header_end + header_sep : Nat) : Int) + n ≤ (buffer.length : Int)) :
    extract_http_message buffer =
      some (pySlice buffer (start : Int) (((header_end + header_sep : Nat) : Int) + n),
        fl, hd, pyDropI buffer (((header_end + header_sep : Nat) : Int) + n)) := by
  have hx := extract_eq_of hfind hhe
  rw [hph] at hx
  rw [hx]
  unfold resolveBodyEnd
  simp only [hcl, hn, Option.getD_some]
  rw [if_neg (by omega)]

/-- C4, witness: content-length 4 beats the chunked header; the message
ends after the four body bytes `Wiki` and `999` remains. -/
theorem c4_witness :
    lookupHdr
      [(strBytes "content-length", strBytes "4"),
       (strBytes "transfer-encoding", strBytes "chunked")]
      (strBytes "transfer-encoding") = some (strBytes "chunked") ∧
    extract_http_message (strBytes "POST / HTTP/1.1\r\nContent-Length: 4\r\nTransfer-Encoding: chunked\r\n\r\nWiki999") =
      some (pySlice (strBytes "POST / HTTP/1.1\r\nContent-Length: 4\r\nTransfer-Encoding: chunked\r\n\r\nWiki999") 0 (66 + 4),
        strBytes "POST / HTTP/1.1",
        [(strBytes "content-length", strBytes "4"),
         (strBytes "transfer-encoding", strBytes "chunked")],
        pyDropI (strBytes "POST / HTTP/1.1\r\nContent-Length: 4\r\nTransfer-Encoding: chunked\r\n\r\nWiki999") (66 + 4)) := by
  refine ⟨by decide, ?_⟩
  exact c4_content_length_precedence _ 0 HKind.request 62 4
    (strBytes "POST / HTTP/1.1") (strBytes "4") (strBytes "chunked")
    [(strBytes "content-length", strBytes "4"),
     (strBytes "transfer-encoding", strBytes "chunked")] 4
    (by decide) (by decide) (by decide) (by decide) (by decide) (by decide)
    (by decide) (by decide) (by decide)

/-- C5: on the response framed with `Transfer-Encoding: chunked` and body
`4\r\nWiki\r\n0\r\n\r\n`, the chunk walk resolves the body end to offset
61, the first byte after the zero-chunk terminating line break (the
buffer continues with `zz`), and the emitted message is byte-for-byte the
response including the chunk-size lines and chunk terminators (raw
framing preserved, not de-chunked). -/
theorem c5_chunked_example_exact_end_verbatim :
    parse_chunked_end (strBytes "HTTP/1.1 200 OK\r\nTransfer-Encoding: chunked\r\n\r\n4\r\nWiki\r\n0\r\n\r\nzz") 47 =
      some 61 ∧
    extract_http_message (strBytes "HTTP/1.1 200 OK\r\nTransfer-Encoding: chunked\r\n\r\n4\r\nWiki\r\n0\r\n\r\nzz") =
      some (strBytes "HTTP/1.1 200 OK\r\nTransfer-Encoding: chunked\r\n\r\n4\r\nWiki\r\n0\r\n\r\n",
        strBytes "HTTP/1.1 200 OK",
        [(strBytes "transfer-encoding", strBytes "chunked")], strBytes "zz") ∧
    strBytes "HTTP/1.1 200 OK\r\nTransfer-Encoding: chunked\r\n\r\n4\r\nWiki\r\n0\r\n\r\n" =
      strBytes "HTTP/1.1 200 OK\r\nTransfer-Encoding: chunked\r\n\r\n" ++
        strBytes "4\r\nWiki\r\n0\r\n\r\n" ∧
    (strBytes "HTTP/1.1 200 OK\r\nTransfer-Encoding: chunked\r\n\r\n4\r\nWiki\r\n0\r\n\r\n").length = 61 := by
  refine ⟨by decide, by decide, by decide, by decide⟩

/-- C10: refutation of guaranteed termination.  On the five-byte buffer
`X\n-4\n` with start offset 2, the size line `-4` parses (Python `int`
accepts a sign) and moves the index backwards to exactly where it began,
so the loop of `parse_chunked_end` revisits index 2 forever: the
fuel-indexed embedding exhausts any amount of fuel without returning. -/
theorem c10_chunked_walker_diverges_on_negative_size :
    ∀ fuel : Nat, parse_chunked_end_aux (strBytes "X\n-4\n") fuel 2 = none := by
  intro fuel
  induction fuel with
  | zero => rfl
  | succ k ih =>
    rw [show parse_chunked_end_aux (strBytes "X\n-4\n") (k + 1) 2 =
      parse_chunked_end_aux (strBytes "X\n-4\n") k 2 from rfl, ih]



/-- C3 counterexample: a located start awaiting more bytes IS discarded by
compaction.  Fed in 8-byte reads with `chunk_size = 8`, the request
`GET /aaaaaaaa HTTP/1.1\nHost:x\n\n` has its start located as soon as the
third read arrives (offset 0 of the 24-byte buffer), but the header
terminator is not yet buffered; extraction fails, the 24-byte buffer
exceeds `2 * chunk_size` and is cut to its trailing 8 bytes, losing the
start — the stream emits nothing, although the same chunks with a larger
`chunk_size` (no compaction) emit the full message, which the framer
resolves in one piece. -/
theorem c3_counterexample_located_start_discarded :
    find_next_http_start (strBytes "GET /aaaaaaaa HTTP/1.1\nH") =
      some (0, HKind.request) ∧
    extract_http_message (strBytes "GET /aaaaaaaa HTTP/1.1\nH") = none ∧
    iter_http_messages
      [strBytes "GET /aaa", strBytes "aaaaa HT", strBytes "TP/1.1\nH",
       strBytes "ost:x\n\n!"] 8 5 = [] ∧
    iter_http_messages
      [strBytes "GET /aaa", strBytes "aaaaa HT", strBytes "TP/1.1\nH",
       strBytes "ost:x\n\n!"] 64 5 =
      [(strBytes "GET /aaaaaaaa HTTP/1.1\nHost:x\n\n",
        strBytes "GET /aaaaaaaa HTTP/1.1", [(strBytes "host", strBytes "x")])] := by
  refine ⟨by decide, by decide, by decide, by decide⟩

/-- C3 (amended): when extraction fails (no start located, or a located
start needs more bytes), the iterator emits nothing in that round and
keeps the buffer byte-for-byte whenever it does not exceed twice the
read-chunk size — so a located start survives and is retried against the
grown buffer after the next read.  But when the buffer exceeds twice the
read-chunk size, the same failed-extraction round keeps only the trailing
`chunk_size` bytes, discarding any located start in the dropped prefix. -/
theorem c3_amended_compaction_on_any_failed_extraction
    (buf : List Nat) (cs fuel : Nat)
    (hfail : extract_http_message buf = none) :
    (buf.length ≤ cs * 2 → innerLoop cs (fuel + 1) buf = ([], buf)) ∧
    (buf.length > cs * 2 →
      innerLoop cs (fuel + 1) buf = ([], buf.drop (buf.length - cs))) := by
  constructor
  · intro hle
    simp only [innerLoop, hfail]
    rw [if_neg (by omega)]
  · intro hgt
    simp only [innerLoop, hfail]
    rw [if_pos hgt]

/-- C3 amended, witness: a truncated lone request (start located, header
terminator missing) in a small buffer is fully retained. -/
theorem c3_amended_witness :
    extract_http_message (strBytes "GET / HT") = none ∧
    innerLoop 8 1 (strBytes "GET / HT") = ([], strBytes "GET / HT") := by
  refine ⟨by decide, ?_⟩
  exact (c3_amended_compaction_on_any_failed_extraction
    (strBytes "GET / HT") 8 0 (by decide)).1 (by decide)

/-- C6, witness: a request with content-length 3 and exactly three body
bytes is emitted; the theorem instance confirms the message is more than
three bytes long and fits in the input. -/
theorem c6_witness :
    (strBytes "GET / HTTP/1.1\r\nContent-Length: 3\r\n\r\nabc",
      strBytes "GET / HTTP/1.1",
      [(strBytes "content-length", strBytes "3")]) ∈
      iter_http_messages
        [strBytes "GET / HTTP/1.1\r\nContent-Length: 3\r\n\r\nabc"] 4194304 5 ∧
    ((3 : Int).toNat + 2 ≤
        (strBytes "GET / HTTP/1.1\r\nContent-Length: 3\r\n\r\nabc").length ∧
      (strBytes "GET / HTTP/1.1\r\nContent-Length: 3\r\n\r\nabc").length ≤
        ([strBytes "GET / HTTP/1.1\r\nContent-Length: 3\r\n\r\nabc"] :
          List (List Nat)).flatten.length) := by
  refine ⟨by decide, ?_⟩
  exact c6_emitted_message_contains_declared_body
    [strBytes "GET / HTTP/1.1\r\nContent-Length: 3\r\n\r\nabc"] 4194304 5
    (strBytes "GET / HTTP/1.1\r\nContent-Length: 3\r\n\r\nabc")
    (strBytes "GET / HTTP/1.1")
    [(strBytes "content-length", strBytes "3")]
    (strBytes "3") 3 (by decide) (by decide) (by decide) (by decide)

/-- C7: for a single input consisting of one message the framer resolves
as a request immediately followed by one it resolves as a response, the
iterator yields exactly those two messages and the pairer emits exactly
one `Item` with both sides populated; the two messages sit at
non-overlapping, ordered byte ranges of the input. -/
theorem c7_one_request_one_response_single_pair
    (rq rs flq fls : List Nat) (hq hs : List (List Nat × List Nat))
    (cs f : Nat)
    (h1 : extract_http_message (rq ++ rs) = some (rq, flq, hq, rs))
    (h2 : extract_http_message rs = some (rs, fls, hs, []))
    (h3 : isRequestMsg flq = true)
    (h4 : isRequestMsg fls = false) :
    iter_http_messages [rq ++ rs] cs (f + 3) = [(rq, flq, hq), (rs, fls, hs)] ∧
    write_http_messages_items
      (iter_http_messages [rq ++ rs] cs (f + 3)) none =
      [(some (rq, flq, hq), some (rs, fls, hs))] ∧
    ∃ ranges, RangesFor (rq ++ rs)
        (iter_http_messages [rq ++ rs] cs (f + 3)) ranges ∧
      RangesOrdered 0 ranges ∧
      List.Pairwise (fun a b : Nat × Nat => a.2 ≤ b.1) ranges := by
  have hinner : innerLoop cs (f + 3) (rq ++ rs) = ([(rq, flq, hq), (rs, fls, hs)], []) := by
    show innerLoop cs (f + 2 + 1) (rq ++ rs) = _
    simp only [innerLoop, h1]
    show ((rq, flq, hq) :: (innerLoop cs (f + 1 + 1) rs).1,
        (innerLoop cs (f + 1 + 1) rs).2) = _
    simp only [innerLoop, h2]
    show ((rq, flq, hq) :: (rs, fls, hs) :: (innerLoop cs (f + 0 + 1) []).1,
        (innerLoop cs (f + 0 + 1) []).2) = _
    simp only [innerLoop, extract_http_message_nil]
    rw [if_neg (by simp)]
  have hiter : iter_http_messages [rq ++ rs] cs (f + 3) =
      [(rq, flq, hq), (rs, fls, hs)] := by
    unfold iter_http_messages outerLoop
    rw [List.nil_append, hinner]
    simp [outerLoop]
  refine ⟨hiter, ?_, ?_⟩
  · rw [hiter]
    unfold write_http_messages_items pairLoop
    rw [if_pos h3]
    unfold pairLoop
    rw [if_neg (by rw [h4]; exact Bool.false_ne_true)]
    rfl
  · obtain ⟨ranges, hr1, hr2⟩ := outerLoop_ranges cs (f + 3) [rq ++ rs] [] 0
      ([rq ++ rs].flatten) (Nat.zero_le _) (by simp)
    refine ⟨ranges, ?_, hr2, RangesOrdered_pairwise hr2⟩
    have hfl : ([rq ++ rs] : List (List Nat)).flatten = rq ++ rs := by simp
    rw [hfl] at hr1
    exact hr1

/-- C7, witness: a concrete GET request followed by a concrete 200
response with `Content-Length: 3` pairs into a single two-sided item. -/
theorem c7_witness :
    extract_http_message
      (strBytes "GET /a HTTP/1.1\r\nHost: x\r\n\r\n" ++
        strBytes "HTTP/1.1 200 OK\r\nContent-Length: 3\r\n\r\nabc") =
      some (strBytes "GET /a HTTP/1.1\r\nHost: x\r\n\r\n",
        strBytes "GET /a HTTP/1.1", [(strBytes "host", strBytes "x")],
        strBytes "HTTP/1.1 200 OK\r\nContent-Length: 3\r\n\r\nabc") ∧
    write_http_messages_items
      (iter_http_messages
        [strBytes "GET /a HTTP/1.1\r\nHost: x\r\n\r\n" ++
          strBytes "HTTP/1.1 200 OK\r\nContent-Length: 3\r\n\r\nabc"] 4194304 3)
      none =
      [(some (strBytes "GET /a HTTP/1.1\r\nHost: x\r\n\r\n",
          strBytes "GET /a HTTP/1.1", [(strBytes "host", strBytes "x")]),
        some (strBytes "HTTP/1.1 200 OK\r\nContent-Length: 3\r\n\r\nabc",
          strBytes "HTTP/1.1 200 OK", [(strBytes "content-length", strBytes "3")]))] := by
  refine ⟨by decide, ?_⟩
  exact (c7_one_request_one_response_single_pair
    (strBytes "GET /a HTTP/1.1\r\nHost: x\r\n\r\n")
    (strBytes "HTTP/1.1 200 OK\r\nContent-Length: 3\r\n\r\nabc")
    (strBytes "GET /a HTTP/1.1") (strBytes "HTTP/1.1 200 OK")
    [(strBytes "host", strBytes "x")]
    [(strBytes "content-length", strBytes "3")] 4194304 0
    (by decide) (by decide) (by decide) (by decide)).2.1

/-- C8: on the two back-to-back requests `GET /a` and `GET /b` with no
response, the iterator yields the two request messages in input order and
the pairer (no limit) emits exactly two items, each with an empty
response side: the first request is flushed standalone when the second
arrives, and the second is flushed at end of stream. -/
theorem c8_two_requests_flushed_unpaired_in_order :
    iter_http_messages
      [strBytes "GET /a HTTP/1.1\r\nHost: x\r\n\r\nGET /b HTTP/1.1\r\nHost: y\r\n\r\n"]
      4194304 5 =
      [(strBytes "GET /a HTTP/1.1\r\nHost: x\r\n\r\n", strBytes "GET /a HTTP/1.1",
        [(strBytes "host", strBytes "x")]),
       (strBytes "GET /b HTTP/1.1\r\nHost: y\r\n\r\n", strBytes "GET /b HTTP/1.1",
        [(strBytes "host", strBytes "y")])] ∧
    write_http_messages_items
      (iter_http_messages
        [strBytes "GET /a HTTP/1.1\r\nHost: x\r\n\r\nGET /b HTTP/1.1\r\nHost: y\r\n\r\n"]
        4194304 5) none =
      [(some (strBytes "GET /a HTTP/1.1\r\nHost: x\r\n\r\n",
          strBytes "GET /a HTTP/1.1", [(strBytes "host", strBytes "x")]), none),
       (some (strBytes "GET /b HTTP/1.1\r\nHost: y\r\n\r\n",
          strBytes "GET /b HTTP/1.1", [(strBytes "host", strBytes "y")]), none)] := by
  refine ⟨by decide, by decide⟩

/-! ### The start locator's search characterisation -/

theorem reqAnchAt_gt_length {b : List Nat} {i : Nat} (h : b.length < i) :
    reqAnchAt b i = false := by
  unfold reqAnchAt
  rw [show (i == 0) = false by simp; omega,
    show byteAt b i = 0 from List.getD_eq_default _ _ (by omega)]
  rfl

theorem respAnchAt_gt_length {b : List Nat} {i : Nat} (h : b.length < i) :
    respAnchAt b i = false := by
  unfold respAnchAt
  rw [show (i == 0) = false by simp; omega,
    show byteAt b i = 0 from List.getD_eq_default _ _ (by omega)]
  rfl

theorem reqSearch_spec_some {b : List Nat} {i : Nat}
    (h1 : reqAnchAt b i = true) (h2 : ∀ k, k < i → reqAnchAt b k = false) :
    reqSearch b = some i := by
  have hle : i ≤ b.length := by
    by_contra hgt
    rw [reqAnchAt_gt_length (by omega)] at h1
    cases h1
  exact firstIdxFrom_intro (Nat.zero_le _) (by omega) h1
    (fun k _ hk => h2 k hk)

theorem respSearch_spec_some {b : List Nat} {j : Nat}
    (h1 : respAnchAt b j = true) (h2 : ∀ k, k < j → respAnchAt b k = false) :
    respSearch b = some j := by
  have hle : j ≤ b.length := by
    by_contra hgt
    rw [respAnchAt_gt_length (by omega)] at h1
    cases h1
  exact firstIdxFrom_intro (Nat.zero_le _) (by omega) h1
    (fun k _ hk => h2 k hk)

theorem reqSearch_eq_none {b : List Nat}
    (h : ∀ k, reqAnchAt b k = false) : reqSearch b = none := by
  cases hr : reqSearch b with
  | none => rfl
  | some i =>
    have := (firstIdxFrom_some hr).2.2.1
    rw [h i] at this
    cases this

theorem respSearch_eq_none {b : List Nat}
    (h : ∀ k, respAnchAt b k = false) : respSearch b = none := by
  cases hr : respSearch b with
  | none => rfl
  | some j =>
    have := (firstIdxFrom_some hr).2.2.1
    rw [h j] at this
    cases this

/-- C9: the locator's full contract.  If neither anchored pattern matches
at any offset, it returns `none`.  If `i` is the earliest request-pattern
match and `j` the earliest response-pattern match, it returns the smaller
of the two offsets — the request winning a tie at an identical offset —
after skipping the leading CR/LF bytes of the match: the returned offset
is at or beyond the raw match offset, every skipped byte is CR or LF, and
the byte at the returned offset (when in bounds) is not CR/LF, i.e. the
first content byte of the line. -/
theorem c9_locator_earliest_request_wins_tie_skips_crlf (buffer : List Nat) :
    ((∀ k, reqAnchAt buffer k = false) → (∀ k, respAnchAt buffer k = false) →
      find_next_http_start buffer = none) ∧
    (∀ i j, reqAnchAt buffer i = true →
      (∀ k, k < i → reqAnchAt buffer k = false) →
      respAnchAt buffer j = true →
      (∀ k, k < j → respAnchAt buffer k = false) →
      find_next_http_start buffer =
        some (skipCRLF buffer (min i j),
          if i ≤ j then HKind.request else HKind.response) ∧
      min i j ≤ skipCRLF buffer (min i j) ∧
      (∀ k, min i j ≤ k → k < skipCRLF buffer (min i j) →
        isCRLFb (byteAt buffer k) = true) ∧
      (skipCRLF buffer (min i j) < buffer.length →
        isCRLFb (byteAt buffer (skipCRLF buffer (min i j))) = false)) := by
  constructor
  · intro hr hs
    unfold find_next_http_start
    rw [reqSearch_eq_none hr, respSearch_eq_none hs]
  · intro i j h1 h2 h3 h4
    have hr := reqSearch_spec_some h1 h2
    have hs := respSearch_spec_some h3 h4
    refine ⟨?_, skipCRLF_ge _ _, skipCRLF_skipped _ _, skipCRLF_stop _ _⟩
    simp only [find_next_http_start, hr, hs]
    by_cases hij : i ≤ j
    · rw [if_pos hij, min_eq_left hij, if_pos hij]
    · rw [if_neg hij, min_eq_right (by omega), if_neg hij]

/-- C9, witness: a buffer whose earliest response match (offset 0, the
leading LF) precedes its earliest request match (offset 15): the locator
returns the response, at offset 1 after skipping the LF. -/
theorem c9_witness :
    reqAnchAt (strBytes "\nHTTP/1.1 200 x\nGET /p HTTP/1.1\n\n") 15 = true ∧
    respAnchAt (strBytes "\nHTTP/1.1 200 x\nGET /p HTTP/1.1\n\n") 0 = true ∧
    find_next_http_start (strBytes "\nHTTP/1.1 200 x\nGET /p HTTP/1.1\n\n") =
      some (skipCRLF (strBytes "\nHTTP/1.1 200 x\nGET /p HTTP/1.1\n\n") (min 15 0),
        if 15 ≤ 0 then HKind.request else HKind.response) ∧
    skipCRLF (strBytes "\nHTTP/1.1 200 x\nGET /p HTTP/1.1\n\n") (min 15 0) = 1 := by
  refine ⟨by decide, by decide, ?_, by decide⟩
  exact ((c9_locator_earliest_request_wins_tie_skips_crlf
    (strBytes "\nHTTP/1.1 200 x\nGET /p HTTP/1.1\n\n")).2 15 0
    (by decide) (by decide) (by decide) (by decide)).1

end BurpToXml
